import Mathlib

/-!
Verification model of utymap's L-system parser (`lsys/LSystemParser.cpp`,
a Boost.Spirit Qi grammar).

The C++ grammar is shallowly embedded as recursive-descent parsers over
`List Char`.  C++ `double` is modelled as `ℚ`; every numeric literal used in
a claim is exactly representable, and the "inf"/"nan" literal forms of
`qi::double_` are not modelled.  Spirit's phrase parsing applies the skipper
before every primitive parser; `qi::lexeme` limits skipping to that
pre-skip.  A plain match failure is `Res.fail` (backtrackable); a failed
expectation (the `>` operator, which throws `qi::expectation_failure`) is
`Res.err`, and alternatives and Kleene iterations stop on `.fail` but
propagate `.err`, exactly as the C++ exception propagates.
-/

/-- Modelled from the spec: the symbol variants of `Rules.hpp`, which is not
part of the excerpt — `MoveForwardRule` (alias `F`), `JumpForwardRule`
(alias `f`) and `WordRule` carrying one character; structurally equal and
totally ordered by tag then payload, which replaces `RuleComparator` as the
map-key comparison. -/
inductive Rule where
  | moveForward
  | jumpForward
  | word (c : Char)
deriving DecidableEq, Repr

/-- Modelled from the spec: `LSystem::Rules`, an order-significant symbol
sequence (the `LSystem` header is not in the excerpt). -/
abbrev Rules := List Rule

/-- Modelled from the spec: `LSystem::Productions`, the ordered collection of
weighted alternatives `(probability, successor)` kept for one predecessor. -/
abbrev Productions := List (ℚ × Rules)

/-- The `ProductionPair` typedef of the parser source. -/
abbrev ProductionPair := Rule × Productions

/-- Modelled from the spec: the production table
`std::map<RuleType, Productions, RuleComparator>`, keys unique under the
structural comparison; represented as the association list of its entries in
arrival order (no claim depends on the key iteration order). -/
abbrev ProductionMap := List ProductionPair

/-- One `std::map::insert` step, which is what Spirit's container traits use
to push a parsed `ProductionPair` into the map attribute: inserting an
already-present key leaves the map unchanged (the new value is discarded);
a fresh key is added. -/
def mapInsert (m : ProductionMap) (k : Rule) (v : Productions) : ProductionMap :=
  if m.any (fun kv => kv.1 == k) then m else m ++ [(k, v)]

/-- Modelled from the spec: the `LSystem` model object (header not in the
excerpt); the fields follow the fusion adaptation in the parser source, with
`axiomSeq` standing for the C++ field `axiom`. -/
structure LSystem where
  generations : Int
  angle : ℚ
  scale : ℚ
  axiomSeq : Rules
  productions : ProductionMap
deriving DecidableEq, Repr

/-- Helper structure for parsing the production map; the field spelling
`predcessor` is the source's. -/
structure Production where
  predcessor : Rule
  probability : ℚ
  successor : Rules
deriving DecidableEq, Repr

/-- `ProductionFactory`: turns one parsed production line into the
`(predecessor, one-element production list)` pair inserted into the map. -/
def factory (p : Production) : ProductionPair :=
  (p.predcessor, [(p.probability, p.successor)])

/-- Parse result: success with remaining input, backtrackable plain failure,
or a thrown expectation failure carrying the expected element's name and the
input at the point of the failed expectation. -/
inductive Res (α : Type) where
  | ok (a : α) (rest : List Char)
  | fail
  | err (what : String) (rest : List Char)
deriving DecidableEq, Repr

/-- A parser over the remaining input. -/
abbrev P (α : Type) := List Char → Res α

/-- The `CommentSkipper` loop.  Mode `none`: before a skipper alternative;
mode `some saved`: inside a candidate comment whose `#` sits at `saved`.
A comment must be closed by a newline (which it consumes); when end of input
is reached inside an open comment the alternative
`('#' >> *(char_ - '\n') >> '\n')` fails and backtracks to `saved`, and the
skipping loop stops there. -/
def skipGo : Option (List Char) → List Char → List Char
  | none, ' ' :: r => skipGo none r
  | none, '#' :: r => skipGo (some ('#' :: r)) r
  | none, s => s
  | some _, '\n' :: r => skipGo none r
  | some sv, _ :: r => skipGo (some sv) r
  | some sv, [] => sv

/-- The phrase skipper: zero or more applications of `lit(' ')` or of a full
`#`-comment terminated by a newline.  Newlines outside comments are never
skipped. -/
def skip (s : List Char) : List Char := skipGo none s

/-- `qi::attr`-like parser: yields a value, consumes nothing. -/
def pureP {α : Type} (a : α) : P α := fun s => .ok a s

/-- Sequencing: the second part runs on the remainder of the first; plain
and expectation failures both abort the sequence, and expectation failures
propagate unchanged. -/
def seqP {α β : Type} (p : P α) (q : α → P β) : P β := fun s =>
  match p s with
  | .ok a r => q a r
  | .fail => .fail
  | .err w r => .err w r

/-- The expectation point introduced by Spirit's `>`: a plain failure of the
expected element becomes an expectation failure recorded with the element's
name and the input at which the element was invoked. -/
def expectP {α : Type} (w : String) (p : P α) : P α := fun s =>
  match p s with
  | .fail => .err w s
  | r => r

/-- Alternative (`|`): the second branch runs, from the same position, only
on plain failure of the first; expectation failures propagate. -/
def altP {α : Type} (p q : P α) : P α := fun s =>
  match p s with
  | .fail => q s
  | r => r

/-- Strip the characters `k` from the front of `s`. -/
def stripPre : List Char → List Char → Option (List Char)
  | [], s => some s
  | c :: k, c' :: s => if c = c' then stripPre k s else none
  | _ :: _, [] => none

/-- A literal token (`qi::lit`): pre-skip, then match the characters of `k`
exactly, with no skipping inside. -/
def litP (k : String) : P Unit := fun s =>
  match stripPre k.data (skip s) with
  | some r => .ok () r
  | none => .fail

/-- The `RuleTable` (`qi::symbols`) alias table `F ↦ MoveForward`,
`f ↦ JumpForward`, consulted after the pre-skip. -/
def ruleTableP : P Rule := fun s =>
  match skip s with
  | 'F' :: r => .ok .moveForward r
  | 'f' :: r => .ok .jumpForward r
  | _ => .fail

/-- `RuleGrammar::word`: `lexeme[char_ - (lit(' ') | '\n')]`, one raw
character that is neither space nor newline, wrapped into a `WordRule` by
`WordRuleFactory`. -/
def wordP : P Rule := fun s =>
  match skip s with
  | c :: r => if c = ' ' ∨ c = '\n' then .fail else .ok (.word c) r
  | [] => .fail

/-- `RuleGrammar::start = ruleTable | word`. -/
def ruleP : P Rule := altP ruleTableP wordP

/-- The symbol a single character resolves to: an alias-table hit or a
generic word (summary function used to state the alias-resolution
properties). -/
def charToRule (c : Char) : Rule :=
  if c = 'F' then .moveForward else if c = 'f' then .jumpForward else .word c

/-- Optional leading sign of a numeric literal. -/
def readSign : List Char → Bool × List Char
  | '-' :: r => (true, r)
  | '+' :: r => (false, r)
  | s => (false, s)

/-- Longest digit prefix and the remainder. -/
def spanDigits : List Char → List Char × List Char
  | c :: r =>
    if c.isDigit then
      let (d, t) := spanDigits r
      (c :: d, t)
    else ([], c :: r)
  | [] => ([], [])

/-- Numeric value of a digit string. -/
def natOfDigits (ds : List Char) : Nat :=
  ds.foldl (fun acc c => acc * 10 + (c.toNat - 48)) 0

/-- Exact power of ten. -/
def pow10 (e : Int) : ℚ :=
  if 0 ≤ e then (10 : ℚ) ^ e.toNat else 1 / (10 : ℚ) ^ (-e).toNat

/-- Digits of an exponent, with optional sign; empty digits fail the whole
number (the exponent is committed once `e`/`E` has been seen). -/
def expDigits (s : List Char) : Option (Int × List Char) :=
  let (neg, s1) := readSign s
  let (ds, s2) := spanDigits s1
  if ds = [] then none
  else some ((if neg then -(natOfDigits ds : Int) else (natOfDigits ds : Int)), s2)

/-- Optional exponent part of `qi::double_`. -/
def expPart : List Char → Option (Int × List Char)
  | 'e' :: r => expDigits r
  | 'E' :: r => expDigits r
  | s => some (0, s)

/-- `qi::int_`: pre-skip, optional sign, one or more digits (the overflow
check of the C++ parser is not modelled; no claim involves it). -/
def qiInt : P Int := fun s =>
  let s1 := skip s
  let (neg, s2) := readSign s1
  let (ds, s3) := spanDigits s2
  if ds = [] then .fail
  else .ok (if neg then -(natOfDigits ds : Int) else (natOfDigits ds : Int)) s3

/-- `qi::double_` with the default real policies: pre-skip, optional sign,
then `digits [ '.' digits ] [ exp ]` or `'.' digits [ exp ]`; the value is
computed exactly in `ℚ`. -/
def qiDouble : P ℚ := fun s =>
  let s1 := skip s
  let (neg, s2) := readSign s1
  let (ip, s3) := spanDigits s2
  match s3 with
  | '.' :: rr =>
    let (fp, s4) := spanDigits rr
    if ip = [] ∧ fp = [] then .fail
    else
      match expPart s4 with
      | none => .fail
      | some (e, s5) =>
        let v := ((natOfDigits ip : ℚ) + (natOfDigits fp : ℚ) / (10 : ℚ) ^ fp.length) * pow10 e
        .ok (if neg then -v else v) s5
  | _ =>
    if ip = [] then .fail
    else
      match expPart s3 with
      | none => .fail
      | some (e, s5) =>
        let v := (natOfDigits ip : ℚ) * pow10 e
        .ok (if neg then -v else v) s5

/-- Kleene iteration for `+rule`, driven by a fuel argument so that the
function is structurally recursive and executable: each successful `ruleP`
step consumes at least one character (`ruleP_ok_length` below), so fuel equal
to the length of the remaining input never runs out and the zero-fuel branch
is unreachable from `plusRule`.  Each failed iteration backtracks to its
start; `ruleP` never raises an expectation failure (`ruleP_no_err` below), so
stopping on any non-success is exact. -/
def manyRuleF : Nat → List Char → Rules × List Char
  | 0, s => ([], s)
  | fuel + 1, s =>
    match ruleP s with
    | .ok v r =>
      let p := manyRuleF fuel r
      (v :: p.1, p.2)
    | _ => ([], s)

/-- `+rule`: one or more symbols, greedy. -/
def plusRule : P Rules := fun s =>
  match ruleP s with
  | .ok v r =>
    let p := manyRuleF r.length r
    .ok (v :: p.1) p.2
  | .fail => .fail
  | .err w r => .err w r

/-- `ProductionGrammar::probability = ('(' > double_ > ')') | attr(1)`:
optional parenthesized weight; once `(` has matched, the number and the
closing parenthesis are expectation points; when `(` does not match the
alternative backtracks (restoring any skipped input) and yields `1`. -/
def probabilityP : P ℚ :=
  altP
    (seqP (litP "(") fun _ =>
      seqP (expectP "real number" qiDouble) fun v =>
      seqP (expectP "\")\"" (litP ")")) fun _ =>
      pureP v)
    (pureP 1)

/-- `ProductionGrammar::production = rule > probability > "->" > +rule`:
only a failure of the leading predecessor symbol is a plain (backtrackable)
failure; everything after it is an expectation point.  (The names recorded
at the expectation points model Spirit's diagnostic `what()`; the source
names its inner `RuleGrammar` member "rule" and leaves the other rules with
default names.) -/
def productionP : P Production :=
  seqP ruleP fun pred =>
  seqP (expectP "probability" probabilityP) fun prob =>
  seqP (expectP "\"->\"" (litP "->")) fun _ =>
  seqP (expectP "rule" plusRule) fun succ =>
  pureP ⟨pred, prob, succ⟩

/-- `ProductionGrammar::pair = production[_val = factory(_1)]`. -/
def pairP : P ProductionPair :=
  seqP productionP fun p => pureP (factory p)

/-- The iteration of `ProductionGrammar::start = pair % '\n'` after its first
element: repeatedly a separator newline followed by one production pair, each
parsed pair inserted into the map attribute; a plain failure of an iteration
backtracks to the iteration's start and ends the loop, while an expectation
failure raised inside a pair propagates.  Fuel is the length of the remaining
input, which never runs out because every iteration consumes at least the
separator newline. -/
def prodLoopF : Nat → ProductionMap → List Char → Res ProductionMap
  | 0, m, s => .ok m s
  | fuel + 1, m, s =>
    match litP "\n" s with
    | .ok _ r =>
      match pairP r with
      | .ok kv r' => prodLoopF fuel (mapInsert m kv.1 kv.2) r'
      | .fail => .ok m s
      | .err w rr => .err w rr
    | _ => .ok m s

/-- `ProductionGrammar::start = pair % '\n'`: at least one production pair,
then the separated iteration. -/
def productionsP : P ProductionMap := fun s =>
  match pairP s with
  | .ok kv r => prodLoopF r.length (mapInsert [] kv.1 kv.2) r
  | .fail => .fail
  | .err w r => .err w r

/-- `LSystemGrammar::start`: the four header fields in fixed order, the
axiom line terminated by a mandatory newline, then the production block.
In the source only a mismatch of the leading `generations:` literal is a
plain failure; every element after it sits behind a `>` and failing it
raises an expectation failure (the C++ groups `(lit > p)` are flattened
here into one chain, which has identical success, failure and expectation
behaviour and only refines the recorded diagnostic names). -/
def lsysStart : P LSystem :=
  seqP (litP "generations:") fun _ =>
  seqP (expectP "integer" qiInt) fun g =>
  seqP (expectP "\"angle:\"" (litP "angle:")) fun _ =>
  seqP (expectP "real number" qiDouble) fun ang =>
  seqP (expectP "\"scale:\"" (litP "scale:")) fun _ =>
  seqP (expectP "real number" qiDouble) fun sc =>
  seqP (expectP "\"axiom:\"" (litP "axiom:")) fun _ =>
  seqP (expectP "production" plusRule) fun ax =>
  seqP (expectP "\"\\n\"" (litP "\n")) fun _ =>
  seqP (expectP "production" productionsP) fun prods =>
  pureP ⟨g, ang, sc, ax, prods⟩

/-- The diagnostic written by the `qi::on_error` handler into the grammar's
error stream: expected-element name and the unconsumed input from the
failure point (``std::endl`` appends the final newline). -/
def renderDiag (w : String) (r : List Char) : String :=
  "Error! Expecting " ++ w ++ " here: \"" ++ String.mk r ++ "\"\n"

/-- The anonymous-namespace `parse(begin, end, lsystem)` driver: run the
grammar with the skipper via `phrase_parse` — which does not require the
whole input to be consumed — and throw `std::domain_error` carrying the
accumulated error stream on failure; the stream is empty when no
expectation failure was raised. -/
def parseRange (s : List Char) : Except String LSystem :=
  match lsysStart s with
  | .ok ls _ => .ok ls
  | .fail => .error "Cannot parse lsystem:"
  | .err w r => .error ("Cannot parse lsystem:" ++ renderDiag w r)

namespace LSystemParser

/-- `LSystemParser::parse(const std::string&)`: run the range driver over
the whole string. -/
def parse (input : String) : Except String LSystem :=
  parseRange input.data

/-- The full contents of an input stream, modelled as the concatenation of
the chunks the `istreambuf_iterator` loop reads. -/
def readAll (chunks : List String) : String := String.join chunks

/-- `LSystemParser::parse(std::istream&)`: read the stream fully into a
string, then delegate to the string overload. -/
def parseStream (chunks : List String) : Except String LSystem :=
  parse (readAll chunks)

end LSystemParser

/-- A small document in the input format the code actually accepts (the
header fields are separated by spaces, since the skipper never skips a
newline and nothing else consumes one before `angle:`/`scale:`): axiom `F`
and the single production `F -> F`. -/
def docA : String := "generations:1 angle:0 scale:1 axiom:F\nF -> F"

/-- The parse result of `docA`. -/
def lsA : LSystem :=
  ⟨1, 0, 1, [.moveForward], [(.moveForward, [(1, [.moveForward])])]⟩

/-! ### Lemmas about the skipper -/

theorem skipGo_none_cons_other (c : Char) (r : List Char)
    (h1 : c ≠ ' ') (h2 : c ≠ '#') : skipGo none (c :: r) = c :: r := by
  unfold skipGo
  split <;> simp_all

theorem skipGo_some_cons_other (c : Char) (r sv : List Char)
    (h1 : c ≠ '\n') : skipGo (some sv) (c :: r) = skipGo (some sv) r := by
  conv_lhs => unfold skipGo
  split <;> simp_all

theorem skipGo_sfx (s : List Char) :
    skipGo none s <:+ s ∧ ∀ sv, s <:+ sv → skipGo (some sv) s <:+ sv := by
  induction s with
  | nil =>
    exact ⟨List.suffix_refl _, fun sv _ => List.suffix_refl _⟩
  | cons c r ih =>
    refine ⟨?_, fun sv hs => ?_⟩
    · by_cases h1 : c = ' '
      · subst h1
        exact ih.1.trans (List.suffix_cons _ _)
      · by_cases h2 : c = '#'
        · subst h2
          exact ih.2 _ (List.suffix_cons _ _)
        · rw [skipGo_none_cons_other c r h1 h2]
    · by_cases h1 : c = '\n'
      · subst h1
        have h : skipGo (some sv) ('\n' :: r) = skipGo none r := rfl
        rw [h]
        exact ih.1.trans ((List.suffix_cons _ _).trans hs)
      · rw [skipGo_some_cons_other c r sv h1]
        exact ih.2 sv ((List.suffix_cons _ _).trans hs)

theorem skip_sfx (s : List Char) : skip s <:+ s := (skipGo_sfx s).1

theorem skip_length (s : List Char) : (skip s).length ≤ s.length :=
  (skip_sfx s).length_le

/-- Inside a candidate comment that never sees a newline, the skipper walks
to the end of input and backtracks to the saved opening position. -/
theorem skipGo_comment_eof (r : List Char) (h : ∀ c ∈ r, c ≠ '\n') :
    ∀ sv, skipGo (some sv) r = sv := by
  induction r with
  | nil => intro sv; rfl
  | cons c t ih =>
    intro sv
    rw [skipGo_some_cons_other c t sv (h c (by simp))]
    exact ih (fun d hd => h d (by simp [hd])) sv

/-- On a block of symbol characters (no newline, no space) the skipper
consumes nothing: a space never matches, and a `#` opens a comment that is
never terminated and hence backtracks. -/
theorem skip_id_of_symbols (l : List Char) (h : ∀ c ∈ l, c ≠ '\n' ∧ c ≠ ' ') :
    skip l = l := by
  cases l with
  | nil => rfl
  | cons c t =>
    by_cases h2 : c = '#'
    · subst h2
      show skipGo (some ('#' :: t)) t = '#' :: t
      exact skipGo_comment_eof t (fun d hd => (h d (by simp [hd])).1) _
    · exact skipGo_none_cons_other c t (h c (by simp)).2 h2

/-- Walking a newline-free comment body ends at the newline that closes the
comment, after which skipping continues. -/
theorem skipGo_comment_walk (body rest : List Char) (h : ∀ c ∈ body, c ≠ '\n') :
    ∀ sv, skipGo (some sv) (body ++ '\n' :: rest) = skipGo none rest := by
  induction body with
  | nil => intro sv; rfl
  | cons c t ih =>
    intro sv
    rw [List.cons_append, skipGo_some_cons_other c _ _ (h c (by simp))]
    exact ih (fun d hd => h d (by simp [hd])) sv

/-- A full comment line (`#`, a newline-free body, and its own terminating
newline) is absorbed by the skipper wherever the skipper runs. -/
theorem skip_comment_line (body rest : List Char) (h : ∀ c ∈ body, c ≠ '\n') :
    skip ('#' :: (body ++ '\n' :: rest)) = skip rest := by
  show skipGo (some ('#' :: (body ++ '\n' :: rest))) (body ++ '\n' :: rest) = skip rest
  exact skipGo_comment_walk body rest h _

/-! ### Lemmas about the primitive parsers -/

theorem stripPre_sfx (k : List Char) :
    ∀ s r, stripPre k s = some r → r <:+ s := by
  induction k with
  | nil =>
    intro s r h
    simp [stripPre] at h
    simp [h]
  | cons c k ih =>
    intro s r h
    cases s with
    | nil => simp [stripPre] at h
    | cons c' t =>
      simp only [stripPre] at h
      split at h
      · exact (ih t r h).trans (List.suffix_cons _ _)
      · simp at h

theorem litP_ok_sfx (k : String) (s : List Char) (u : Unit) (r : List Char)
    (h : litP k s = .ok u r) : r <:+ s := by
  unfold litP at h
  cases hp : stripPre k.data (skip s) with
  | none => rw [hp] at h; simp at h
  | some t =>
    rw [hp] at h
    simp at h
    exact h ▸ ((stripPre_sfx _ _ _ hp).trans (skip_sfx s))

theorem litP_no_err (k : String) (s : List Char) (w : String) (r : List Char) :
    litP k s ≠ .err w r := by
  unfold litP
  cases hp : stripPre k.data (skip s) <;> simp

theorem ruleP_ok_cons (s : List Char) (v : Rule) (r : List Char)
    (h : ruleP s = .ok v r) : ∃ c, skip s = c :: r := by
  unfold ruleP altP ruleTableP wordP at h
  cases hs : skip s with
  | nil => rw [hs] at h; simp at h
  | cons c t =>
    rw [hs] at h
    refine ⟨c, ?_⟩
    by_cases h1 : c = 'F' <;> by_cases h2 : c = 'f' <;>
      simp_all <;> split at h <;> simp_all

theorem ruleP_ok_sfx (s : List Char) (v : Rule) (r : List Char)
    (h : ruleP s = .ok v r) : r <:+ s := by
  obtain ⟨c, hc⟩ := ruleP_ok_cons s v r h
  exact (List.suffix_cons c r).trans (hc ▸ skip_sfx s)

theorem ruleP_ok_length (s : List Char) (v : Rule) (r : List Char)
    (h : ruleP s = .ok v r) : r.length < s.length := by
  obtain ⟨c, hc⟩ := ruleP_ok_cons s v r h
  have h1 : (skip s).length ≤ s.length := skip_length s
  rw [hc] at h1
  simp at h1
  omega

theorem ruleP_no_err (s : List Char) (w : String) (r : List Char) :
    ruleP s ≠ .err w r := by
  unfold ruleP altP ruleTableP wordP
  cases hs : skip s with
  | nil => simp
  | cons c t =>
    by_cases h1 : c = 'F' <;> by_cases h2 : c = 'f' <;> simp_all <;> split <;> simp_all

/-- Evaluation of the symbol grammar on a non-space, non-newline head
character after skipping: the alias table resolves `F` and `f`, every other
character becomes a word. -/
theorem ruleP_eval (s : List Char) (c : Char) (r : List Char)
    (hs : skip s = c :: r) (h1 : c ≠ '\n') (h2 : c ≠ ' ') :
    ruleP s = .ok (charToRule c) r := by
  unfold ruleP altP ruleTableP wordP charToRule
  rw [hs]
  by_cases hF : c = 'F' <;> by_cases hf : c = 'f' <;> simp_all

/-! ### Lemmas about the Kleene iterations -/

/-- Fuel never matters once the rule grammar stops. -/
theorem manyRuleF_nl (fuel : Nat) (r : List Char) :
    manyRuleF fuel ('\n' :: r) = ([], '\n' :: r) := by
  cases fuel with
  | zero => rfl
  | succ n =>
    have h : ruleP ('\n' :: r) = .fail := by
      unfold ruleP altP ruleTableP wordP
      simp [skip, skipGo]
    simp [manyRuleF, h]

theorem manyRuleF_sfx (fuel : Nat) :
    ∀ s, (manyRuleF fuel s).2 <:+ s := by
  induction fuel with
  | zero => intro s; exact List.suffix_refl _
  | succ n ih =>
    intro s
    unfold manyRuleF
    cases h : ruleP s with
    | ok v r => exact (ih r).trans (ruleP_ok_sfx s v r h)
    | fail => exact List.suffix_refl _
    | err w r => exact List.suffix_refl _

/-- With enough fuel, a block of symbol characters running to the end of the
input is consumed completely, one symbol per character. -/
theorem manyRuleF_symbols (body : List Char) :
    ∀ fuel, body.length ≤ fuel → (∀ c ∈ body, c ≠ '\n' ∧ c ≠ ' ') →
    manyRuleF fuel body = (body.map charToRule, []) := by
  induction body with
  | nil =>
    intro fuel _ _
    cases fuel with
    | zero => rfl
    | succ n =>
      have h : ruleP [] = .fail := by
        unfold ruleP altP ruleTableP wordP
        simp [skip, skipGo]
      simp [manyRuleF, h]
  | cons c t ih =>
    intro fuel hf h
    cases fuel with
    | zero => simp at hf
    | succ n =>
      have hs : skip (c :: t) = c :: t :=
        skip_id_of_symbols _ h
      have hr : ruleP (c :: t) = .ok (charToRule c) t :=
        ruleP_eval _ c t hs (h c (by simp)).1 (h c (by simp)).2
      have ht := ih n (by simp at hf; omega) (fun d hd => h d (by simp [hd]))
      simp [manyRuleF, hr, ht]

/-- A pending separated iteration stops, consuming nothing, when the input
continues with a blank line: the separator newline matches but the next
production's leading symbol fails on the second newline, and the iteration
backtracks. -/
theorem prodLoopF_blank (fuel : Nat) (m : ProductionMap) (rest : List Char) :
    prodLoopF fuel m ('\n' :: '\n' :: rest) = .ok m ('\n' :: '\n' :: rest) := by
  cases fuel with
  | zero => rfl
  | succ n =>
    have hlit : litP "\n" ('\n' :: '\n' :: rest) = .ok () ('\n' :: rest) := by
      simp [litP, skip, skipGo, stripPre]
    have hrule : ruleP ('\n' :: rest) = .fail := by
      unfold ruleP altP ruleTableP wordP
      simp [skip, skipGo]
    have hpair : pairP ('\n' :: rest) = .fail := by
      simp [pairP, productionP, seqP, hrule]
    simp [prodLoopF, hlit, hpair]


/-! ### Consumed input is a suffix: combinator lemmas -/

theorem pureP_sfx {α : Type} (a : α) :
    (∀ s (b : α) r, pureP a s = .ok b r → r <:+ s) ∧
    (∀ s w r, pureP a s = .err w r → r <:+ s) := by
  constructor
  · intro s b r h
    simp [pureP] at h
    simp [h]
  · intro s w r h
    simp [pureP] at h

theorem seqP_sfx {α β : Type} {p : P α} {q : α → P β}
    (hp : ∀ s a r, p s = .ok a r → r <:+ s)
    (hpe : ∀ s w r, p s = .err w r → r <:+ s)
    (hq : ∀ a s b r, q a s = .ok b r → r <:+ s)
    (hqe : ∀ a s w r, q a s = .err w r → r <:+ s) :
    (∀ s b r, seqP p q s = .ok b r → r <:+ s) ∧
    (∀ s w r, seqP p q s = .err w r → r <:+ s) := by
  constructor
  · intro s b r h
    unfold seqP at h
    cases hps : p s with
    | ok a r1 =>
      rw [hps] at h
      exact (hq a r1 b r h).trans (hp s a r1 hps)
    | fail => rw [hps] at h; simp at h
    | err w1 r1 => rw [hps] at h; simp at h
  · intro s w r h
    unfold seqP at h
    cases hps : p s with
    | ok a r1 =>
      rw [hps] at h
      exact (hqe a r1 w r h).trans (hp s a r1 hps)
    | fail => rw [hps] at h; simp at h
    | err w1 r1 =>
      rw [hps] at h
      simp at h
      exact h.2 ▸ hpe s w1 r1 hps

theorem expectP_sfx {α : Type} (w0 : String) {p : P α}
    (hp : ∀ s a r, p s = .ok a r → r <:+ s)
    (hpe : ∀ s w r, p s = .err w r → r <:+ s) :
    (∀ s (b : α) r, expectP w0 p s = .ok b r → r <:+ s) ∧
    (∀ s w r, expectP w0 p s = .err w r → r <:+ s) := by
  constructor
  · intro s b r h
    unfold expectP at h
    cases hps : p s with
    | ok a r1 => rw [hps] at h; simp at h; exact h.2 ▸ hp s a r1 hps
    | fail => rw [hps] at h; simp at h
    | err w1 r1 => rw [hps] at h; simp at h
  · intro s w r h
    unfold expectP at h
    cases hps : p s with
    | ok a r1 => rw [hps] at h; simp at h
    | fail =>
      rw [hps] at h
      simp at h
      simp [h.2]
    | err w1 r1 =>
      rw [hps] at h
      simp at h
      exact h.2 ▸ hpe s w1 r1 hps

theorem altP_sfx {α : Type} {p q : P α}
    (hp : ∀ s a r, p s = .ok a r → r <:+ s)
    (hpe : ∀ s w r, p s = .err w r → r <:+ s)
    (hq : ∀ s a r, q s = .ok a r → r <:+ s)
    (hqe : ∀ s w r, q s = .err w r → r <:+ s) :
    (∀ s (a : α) r, altP p q s = .ok a r → r <:+ s) ∧
    (∀ s w r, altP p q s = .err w r → r <:+ s) := by
  constructor
  · intro s a r h
    unfold altP at h
    cases hps : p s with
    | ok a1 r1 => rw [hps] at h; simp at h; exact h.2 ▸ hp s a1 r1 hps
    | fail => rw [hps] at h; exact hq s a r h
    | err w1 r1 => rw [hps] at h; simp at h
  · intro s w r h
    unfold altP at h
    cases hps : p s with
    | ok a1 r1 => rw [hps] at h; simp at h
    | fail => rw [hps] at h; exact hqe s w r h
    | err w1 r1 => rw [hps] at h; simp at h; exact h.2 ▸ hpe s w1 r1 hps

/-! ### Consumed input is a suffix: numeric parsers -/

theorem readSign_sfx (s : List Char) : (readSign s).2 <:+ s := by
  unfold readSign
  split
  · exact List.suffix_cons _ _
  · exact List.suffix_cons _ _
  · exact List.suffix_refl _

theorem spanDigits_sfx (s : List Char) : (spanDigits s).2 <:+ s := by
  induction s with
  | nil => exact List.suffix_refl _
  | cons c r ih =>
    cases hsd : spanDigits r with
    | mk d t =>
      by_cases h : c.isDigit
      · simp [spanDigits, h, hsd]
        rw [hsd] at ih
        exact ih.trans (List.suffix_cons _ _)
      · simp [spanDigits, h]

theorem expDigits_sfx (s : List Char) (e : Int) (r : List Char)
    (h : expDigits s = some (e, r)) : r <:+ s := by
  unfold expDigits at h
  cases hrs : readSign s with
  | mk neg s1 =>
    rw [hrs] at h
    dsimp only at h
    cases hsp : spanDigits s1 with
    | mk ds s2 =>
      rw [hsp] at h
      dsimp only at h
      split at h
      · simp at h
      · simp at h
        have h1 : s2 <:+ s1 := by
          have hx := spanDigits_sfx s1
          rw [hsp] at hx
          exact hx
        have h2 : s1 <:+ s := by
          have hx := readSign_sfx s
          rw [hrs] at hx
          exact hx
        exact h.2 ▸ (h1.trans h2)

theorem expPart_sfx (s : List Char) (e : Int) (r : List Char)
    (h : expPart s = some (e, r)) : r <:+ s := by
  unfold expPart at h
  split at h
  · exact (expDigits_sfx _ e r h).trans (List.suffix_cons _ _)
  · exact (expDigits_sfx _ e r h).trans (List.suffix_cons _ _)
  · simp at h
    simp [h.2]

theorem qiInt_sfx (s : List Char) (x : Int) (r : List Char)
    (h : qiInt s = .ok x r) : r <:+ s := by
  unfold qiInt at h
  dsimp only at h
  cases hrs : readSign (skip s) with
  | mk neg s2 =>
    rw [hrs] at h
    dsimp only at h
    cases hsp : spanDigits s2 with
    | mk ds s3 =>
      rw [hsp] at h
      dsimp only at h
      split at h
      · simp at h
      · simp at h
        have h1 : s3 <:+ s2 := by
          have hx := spanDigits_sfx s2
          rw [hsp] at hx
          exact hx
        have h2 : s2 <:+ skip s := by
          have hx := readSign_sfx (skip s)
          rw [hrs] at hx
          exact hx
        exact h.2 ▸ (h1.trans (h2.trans (skip_sfx s)))

theorem qiInt_no_err (s : List Char) (w : String) (r : List Char) :
    qiInt s ≠ .err w r := by
  intro h
  unfold qiInt at h
  dsimp only at h
  cases hrs : readSign (skip s) with
  | mk neg s2 =>
    rw [hrs] at h
    dsimp only at h
    cases hsp : spanDigits s2 with
    | mk ds s3 =>
      rw [hsp] at h
      dsimp only at h
      split at h
      · simp at h
      · simp at h

theorem qiDouble_sfx (s : List Char) (x : ℚ) (r : List Char)
    (h : qiDouble s = .ok x r) : r <:+ s := by
  unfold qiDouble at h
  dsimp only at h
  cases hrs : readSign (skip s) with
  | mk neg s2 =>
    rw [hrs] at h
    dsimp only at h
    have hs2 : s2 <:+ s := by
      have hx := readSign_sfx (skip s)
      rw [hrs] at hx
      exact hx.trans (skip_sfx s)
    cases hsp : spanDigits s2 with
    | mk ip s3 =>
      rw [hsp] at h
      dsimp only at h
      have hs3 : s3 <:+ s2 := by
        have hx := spanDigits_sfx s2
        rw [hsp] at hx
        exact hx
      split at h
      · rename_i rr
        have hrr : rr <:+ s2 := (List.suffix_cons _ _).trans hs3
        cases hsp2 : spanDigits rr with
        | mk fp s4 =>
          rw [hsp2] at h
          dsimp only at h
          have hs4 : s4 <:+ rr := by
            have hx := spanDigits_sfx rr
            rw [hsp2] at hx
            exact hx
          split at h
          · simp at h
          · cases hep : expPart s4 with
            | none => rw [hep] at h; simp at h
            | some p =>
              cases p with
              | mk e s5 =>
                rw [hep] at h
                simp at h
                exact h.2 ▸ ((expPart_sfx s4 e s5 hep).trans
                  (hs4.trans (hrr.trans hs2)))
      · split at h
        · simp at h
        · cases hep : expPart s3 with
          | none => rw [hep] at h; simp at h
          | some p =>
            cases p with
            | mk e s5 =>
              rw [hep] at h
              simp at h
              exact h.2 ▸ ((expPart_sfx s3 e s5 hep).trans (hs3.trans hs2))

theorem qiDouble_no_err (s : List Char) (w : String) (r : List Char) :
    qiDouble s ≠ .err w r := by
  intro h
  unfold qiDouble at h
  dsimp only at h
  cases hrs : readSign (skip s) with
  | mk neg s2 =>
    rw [hrs] at h
    dsimp only at h
    cases hsp : spanDigits s2 with
    | mk ip s3 =>
      rw [hsp] at h
      dsimp only at h
      split at h
      · rename_i rr
        cases hsp2 : spanDigits rr with
        | mk fp s4 =>
          rw [hsp2] at h
          dsimp only at h
          split at h
          · simp at h
          · cases hep : expPart s4 with
            | none => rw [hep] at h; simp at h
            | some p =>
              cases p with
              | mk e s5 => rw [hep] at h; simp at h
      · split at h
        · simp at h
        · cases hep : expPart s3 with
          | none => rw [hep] at h; simp at h
          | some p =>
            cases p with
            | mk e s5 => rw [hep] at h; simp at h

/-! ### Inversion lemmas for the combinators -/

theorem seqP_ok_inv {α β : Type} {p : P α} {q : α → P β} {s : List Char}
    {b : β} {r : List Char} (h : seqP p q s = .ok b r) :
    ∃ a r1, p s = .ok a r1 ∧ q a r1 = .ok b r := by
  unfold seqP at h
  cases hps : p s with
  | ok a r1 => rw [hps] at h; exact ⟨a, r1, rfl, h⟩
  | fail => rw [hps] at h; simp at h
  | err w1 r1 => rw [hps] at h; simp at h

theorem seqP_err_inv {α β : Type} {p : P α} {q : α → P β} {s : List Char}
    {w : String} {r : List Char} (h : seqP p q s = .err w r) :
    p s = .err w r ∨ ∃ a r1, p s = .ok a r1 ∧ q a r1 = .err w r := by
  unfold seqP at h
  cases hps : p s with
  | ok a r1 => rw [hps] at h; exact .inr ⟨a, r1, rfl, h⟩
  | fail => rw [hps] at h; simp at h
  | err w1 r1 =>
    rw [hps] at h
    simp at h
    exact .inl (by rw [h.1, h.2])

theorem seqP_fail_inv {α β : Type} {p : P α} {q : α → P β} {s : List Char}
    (h : seqP p q s = .fail) :
    p s = .fail ∨ ∃ a r1, p s = .ok a r1 ∧ q a r1 = .fail := by
  unfold seqP at h
  cases hps : p s with
  | ok a r1 => rw [hps] at h; exact .inr ⟨a, r1, rfl, h⟩
  | fail => exact .inl rfl
  | err w1 r1 => rw [hps] at h; simp at h

theorem expectP_ok_inv {α : Type} {w0 : String} {p : P α} {s : List Char}
    {b : α} {r : List Char} (h : expectP w0 p s = .ok b r) :
    p s = .ok b r := by
  unfold expectP at h
  cases hps : p s with
  | ok a r1 => rw [hps] at h; simp at h; rw [h.1, h.2]
  | fail => rw [hps] at h; simp at h
  | err w1 r1 => rw [hps] at h; simp at h

theorem expectP_err_inv {α : Type} {w0 : String} {p : P α} {s : List Char}
    {w : String} {r : List Char} (h : expectP w0 p s = .err w r) :
    (p s = .fail ∧ w = w0 ∧ r = s) ∨ p s = .err w r := by
  unfold expectP at h
  cases hps : p s with
  | ok a r1 => rw [hps] at h; simp at h
  | fail =>
    rw [hps] at h
    simp at h
    exact .inl ⟨rfl, h.1.symm, h.2.symm⟩
  | err w1 r1 =>
    rw [hps] at h
    simp at h
    exact .inr (by rw [h.1, h.2])

theorem expectP_ne_fail {α : Type} (w0 : String) (p : P α) (s : List Char) :
    expectP w0 p s ≠ .fail := by
  unfold expectP
  cases hps : p s <;> simp

theorem altP_ok_inv {α : Type} {p q : P α} {s : List Char} {a : α}
    {r : List Char} (h : altP p q s = .ok a r) :
    p s = .ok a r ∨ (p s = .fail ∧ q s = .ok a r) := by
  unfold altP at h
  cases hps : p s with
  | ok a1 r1 => rw [hps] at h; simp at h; exact .inl (by rw [h.1, h.2])
  | fail => rw [hps] at h; exact .inr ⟨rfl, h⟩
  | err w1 r1 => rw [hps] at h; simp at h

theorem altP_err_inv {α : Type} {p q : P α} {s : List Char} {w : String}
    {r : List Char} (h : altP p q s = .err w r) :
    p s = .err w r ∨ (p s = .fail ∧ q s = .err w r) := by
  unfold altP at h
  cases hps : p s with
  | ok a1 r1 => rw [hps] at h; simp at h
  | fail => rw [hps] at h; exact .inr ⟨rfl, h⟩
  | err w1 r1 => rw [hps] at h; simp at h; exact .inl (by rw [h.1, h.2])

theorem altP_fail_inv {α : Type} {p q : P α} {s : List Char}
    (h : altP p q s = .fail) : p s = .fail ∧ q s = .fail := by
  unfold altP at h
  cases hps : p s with
  | ok a1 r1 => rw [hps] at h; simp at h
  | fail => rw [hps] at h; exact ⟨rfl, h⟩
  | err w1 r1 => rw [hps] at h; simp at h

theorem pureP_ok_inv {α : Type} {a : α} {s : List Char} {b : α}
    {r : List Char} (h : pureP a s = .ok b r) : b = a ∧ r = s := by
  simp [pureP] at h
  exact ⟨h.1.symm, h.2.symm⟩

theorem pureP_ne_err {α : Type} (a : α) (s : List Char) (w : String)
    (r : List Char) : pureP a s ≠ .err w r := by
  simp [pureP]

theorem pureP_ne_fail {α : Type} (a : α) (s : List Char) : pureP a s ≠ .fail := by
  simp [pureP]

/-! ### Lemmas about the composite grammar rules -/

theorem plusRule_ok_sfx (s : List Char) (a : Rules) (r : List Char)
    (h : plusRule s = .ok a r) : r <:+ s := by
  unfold plusRule at h
  cases hr : ruleP s with
  | ok v r1 =>
    rw [hr] at h
    dsimp only at h
    simp at h
    exact h.2 ▸ ((manyRuleF_sfx _ r1).trans (ruleP_ok_sfx s v r1 hr))
  | fail => rw [hr] at h; simp at h
  | err w1 r1 => rw [hr] at h; simp at h

theorem plusRule_no_err (s : List Char) (w : String) (r : List Char) :
    plusRule s ≠ .err w r := by
  intro h
  unfold plusRule at h
  cases hr : ruleP s with
  | ok v r1 => rw [hr] at h; simp at h
  | fail => rw [hr] at h; simp at h
  | err w1 r1 => exact absurd hr (ruleP_no_err s w1 r1)

theorem plusRule_ok_ne_nil (s : List Char) (a : Rules) (r : List Char)
    (h : plusRule s = .ok a r) : a ≠ [] := by
  unfold plusRule at h
  cases hr : ruleP s with
  | ok v r1 =>
    rw [hr] at h
    dsimp only at h
    simp at h
    rw [← h.1]
    simp
  | fail => rw [hr] at h; simp at h
  | err w1 r1 => rw [hr] at h; simp at h

/-- Inversion of the optional probability group: the attribute is the
default `1` with nothing consumed, or exactly the parenthesized
floating-point literal. -/
theorem probabilityP_ok_inv (s : List Char) (x : ℚ) (r : List Char)
    (h : probabilityP s = .ok x r) :
    (x = 1 ∧ r = s) ∨
    (∃ t r2, litP "(" s = .ok () t ∧ qiDouble t = .ok x r2 ∧
      litP ")" r2 = .ok () r) := by
  unfold probabilityP at h
  rcases altP_ok_inv h with h1 | ⟨_, h2⟩
  · obtain ⟨u, t, hlit, h1⟩ := seqP_ok_inv h1
    obtain ⟨x1, r2, hdq, h1⟩ := seqP_ok_inv h1
    obtain ⟨u2, r3, hcl, h1⟩ := seqP_ok_inv h1
    obtain ⟨hb, hr⟩ := pureP_ok_inv h1
    refine .inr ⟨t, r2, ?_, ?_, ?_⟩
    · cases u; exact hlit
    · rw [hb]; exact expectP_ok_inv hdq
    · cases u2; rw [hr]; exact expectP_ok_inv hcl
  · obtain ⟨hb, hr⟩ := pureP_ok_inv h2
    exact .inl ⟨hb, hr⟩

theorem probabilityP_ne_fail (s : List Char) : probabilityP s ≠ .fail := by
  intro h
  unfold probabilityP at h
  obtain ⟨h1, h2⟩ := altP_fail_inv h
  exact pureP_ne_fail _ _ h2

theorem probabilityP_ok_sfx (s : List Char) (x : ℚ) (r : List Char)
    (h : probabilityP s = .ok x r) : r <:+ s := by
  rcases probabilityP_ok_inv s x r h with ⟨_, hr⟩ | ⟨t, r2, hlit, hdq, hcl⟩
  · simp [hr]
  · exact (litP_ok_sfx _ _ _ _ hcl).trans
      ((qiDouble_sfx _ _ _ hdq).trans (litP_ok_sfx _ _ _ _ hlit))

theorem probabilityP_err_sfx (s : List Char) (w : String) (r : List Char)
    (h : probabilityP s = .err w r) : r <:+ s := by
  unfold probabilityP at h
  rcases altP_err_inv h with h1 | ⟨_, h2⟩
  · rcases seqP_err_inv h1 with hl | ⟨u, t, hlit, h1⟩
    · exact absurd hl (litP_no_err _ _ _ _)
    · have ht : t <:+ s := litP_ok_sfx _ _ _ _ hlit
      rcases seqP_err_inv h1 with hd | ⟨x1, r2, hdq, h1⟩
      · rcases expectP_err_inv hd with ⟨_, _, hr⟩ | hd'
        · exact hr ▸ ht
        · exact absurd hd' (qiDouble_no_err _ _ _)
      · have hr2 : r2 <:+ s :=
          (qiDouble_sfx _ _ _ (expectP_ok_inv hdq)).trans ht
        rcases seqP_err_inv h1 with hc | ⟨u2, r3, hcl, h1⟩
        · rcases expectP_err_inv hc with ⟨_, _, hr⟩ | hc'
          · exact hr ▸ hr2
          · exact absurd hc' (litP_no_err _ _ _ _)
        · exact absurd h1 (pureP_ne_err _ _ _ _)
  · exact absurd h2 (pureP_ne_err _ _ _ _)

theorem productionP_ok_sfx (s : List Char) (p0 : Production) (r : List Char)
    (h : productionP s = .ok p0 r) : r <:+ s := by
  unfold productionP at h
  obtain ⟨pred, r1, hrule, h⟩ := seqP_ok_inv h
  obtain ⟨prob, r2, hprob, h⟩ := seqP_ok_inv h
  obtain ⟨u, r3, harr, h⟩ := seqP_ok_inv h
  obtain ⟨succ, r4, hsucc, h⟩ := seqP_ok_inv h
  obtain ⟨_, hr⟩ := pureP_ok_inv h
  have h1 : r1 <:+ s := ruleP_ok_sfx _ _ _ hrule
  have h2 : r2 <:+ r1 := probabilityP_ok_sfx _ _ _ (expectP_ok_inv hprob)
  have h3 : r3 <:+ r2 := litP_ok_sfx _ _ _ _ (expectP_ok_inv harr)
  have h4 : r4 <:+ r3 := plusRule_ok_sfx _ _ _ (expectP_ok_inv hsucc)
  rw [hr]
  exact h4.trans (h3.trans (h2.trans h1))

theorem productionP_err_sfx (s : List Char) (w : String) (r : List Char)
    (h : productionP s = .err w r) : r <:+ s := by
  unfold productionP at h
  rcases seqP_err_inv h with hr0 | ⟨pred, r1, hrule, h⟩
  · exact absurd hr0 (ruleP_no_err _ _ _)
  · have h1 : r1 <:+ s := ruleP_ok_sfx _ _ _ hrule
    rcases seqP_err_inv h with hp | ⟨prob, r2, hprob, h⟩
    · rcases expectP_err_inv hp with ⟨hpf, _, hr⟩ | hp'
      · exact absurd hpf (probabilityP_ne_fail _)
      · exact (probabilityP_err_sfx _ _ _ hp').trans h1
    · have h2 : r2 <:+ s :=
        (probabilityP_ok_sfx _ _ _ (expectP_ok_inv hprob)).trans h1
      rcases seqP_err_inv h with ha | ⟨u, r3, harr, h⟩
      · rcases expectP_err_inv ha with ⟨_, _, hr⟩ | ha'
        · exact hr ▸ h2
        · exact absurd ha' (litP_no_err _ _ _ _)
      · have h3 : r3 <:+ s :=
          (litP_ok_sfx _ _ _ _ (expectP_ok_inv harr)).trans h2
        rcases seqP_err_inv h with hs4 | ⟨succ, r4, hsucc, h⟩
        · rcases expectP_err_inv hs4 with ⟨_, _, hr⟩ | hs'
          · exact hr ▸ h3
          · exact absurd hs' (plusRule_no_err _ _ _)
        · exact absurd h (pureP_ne_err _ _ _ _)

theorem pairP_ok_sfx (s : List Char) (kv : ProductionPair) (r : List Char)
    (h : pairP s = .ok kv r) : r <:+ s := by
  unfold pairP at h
  obtain ⟨p0, r1, hp, h⟩ := seqP_ok_inv h
  obtain ⟨_, hr⟩ := pureP_ok_inv h
  exact hr ▸ productionP_ok_sfx _ _ _ hp

theorem pairP_err_sfx (s : List Char) (w : String) (r : List Char)
    (h : pairP s = .err w r) : r <:+ s := by
  unfold pairP at h
  rcases seqP_err_inv h with hp | ⟨p0, r1, hp, h⟩
  · exact productionP_err_sfx _ _ _ hp
  · exact absurd h (pureP_ne_err _ _ _ _)

theorem prodLoopF_ok_sfx (fuel : Nat) :
    ∀ m s m' r', prodLoopF fuel m s = .ok m' r' → r' <:+ s := by
  induction fuel with
  | zero =>
    intro m s m' r' h
    simp [prodLoopF] at h
    simp [h.2]
  | succ n ih =>
    intro m s m' r' h
    unfold prodLoopF at h
    cases hl : litP "\n" s with
    | ok u r =>
      rw [hl] at h
      dsimp only at h
      cases hp : pairP r with
      | ok kv r1 =>
        rw [hp] at h
        exact (ih _ _ _ _ h).trans
          ((pairP_ok_sfx _ _ _ hp).trans (litP_ok_sfx _ _ _ _ hl))
      | fail =>
        rw [hp] at h
        simp at h
        simp [h.2]
      | err w1 r1 => rw [hp] at h; simp at h
    | fail =>
      rw [hl] at h
      simp at h
      simp [h.2]
    | err w1 r1 => exact absurd hl (litP_no_err _ _ _ _)

theorem prodLoopF_err_sfx (fuel : Nat) :
    ∀ m s w r', prodLoopF fuel m s = .err w r' → r' <:+ s := by
  induction fuel with
  | zero =>
    intro m s w r' h
    simp [prodLoopF] at h
  | succ n ih =>
    intro m s w r' h
    unfold prodLoopF at h
    cases hl : litP "\n" s with
    | ok u r =>
      rw [hl] at h
      dsimp only at h
      cases hp : pairP r with
      | ok kv r1 =>
        rw [hp] at h
        exact (ih _ _ _ _ h).trans
          ((pairP_ok_sfx _ _ _ hp).trans (litP_ok_sfx _ _ _ _ hl))
      | fail => rw [hp] at h; simp at h
      | err w1 r1 =>
        rw [hp] at h
        simp at h
        exact h.2 ▸ ((pairP_err_sfx _ _ _ hp).trans (litP_ok_sfx _ _ _ _ hl))
    | fail => rw [hl] at h; simp at h
    | err w1 r1 => exact absurd hl (litP_no_err _ _ _ _)

theorem productionsP_ok_sfx (s : List Char) (m : ProductionMap) (r : List Char)
    (h : productionsP s = .ok m r) : r <:+ s := by
  unfold productionsP at h
  cases hp : pairP s with
  | ok kv r1 =>
    rw [hp] at h
    exact (prodLoopF_ok_sfx _ _ _ _ _ h).trans (pairP_ok_sfx _ _ _ hp)
  | fail => rw [hp] at h; simp at h
  | err w1 r1 => rw [hp] at h; simp at h

theorem productionsP_err_sfx (s : List Char) (w : String) (r : List Char)
    (h : productionsP s = .err w r) : r <:+ s := by
  unfold productionsP at h
  cases hp : pairP s with
  | ok kv r1 =>
    rw [hp] at h
    exact (prodLoopF_err_sfx _ _ _ _ _ h).trans (pairP_ok_sfx _ _ _ hp)
  | fail => rw [hp] at h; simp at h
  | err w1 r1 =>
    rw [hp] at h
    simp at h
    exact h.2 ▸ pairP_err_sfx _ _ _ hp

/-- Inversion of a successful top-level parse: each header literal matched
in its fixed position, each value was produced by the number grammar on the
input that follows it, the axiom symbols and the mandatory newline follow,
and the production block produced the table. -/
theorem lsysStart_ok_inv (s : List Char) (ls : LSystem) (rr : List Char)
    (h : lsysStart s = .ok ls rr) :
    ∃ s1 s2 s3 s4 s5 s6 s7 s8 s9 s10,
      litP "generations:" s = .ok () s1 ∧
      qiInt s1 = .ok ls.generations s2 ∧
      litP "angle:" s2 = .ok () s3 ∧
      qiDouble s3 = .ok ls.angle s4 ∧
      litP "scale:" s4 = .ok () s5 ∧
      qiDouble s5 = .ok ls.scale s6 ∧
      litP "axiom:" s6 = .ok () s7 ∧
      plusRule s7 = .ok ls.axiomSeq s8 ∧
      litP "\n" s8 = .ok () s9 ∧
      productionsP s9 = .ok ls.productions s10 := by
  unfold lsysStart at h
  obtain ⟨u1, s1, h1, h⟩ := seqP_ok_inv h
  obtain ⟨g, s2, h2, h⟩ := seqP_ok_inv h
  obtain ⟨u2, s3, h3, h⟩ := seqP_ok_inv h
  obtain ⟨ang, s4, h4, h⟩ := seqP_ok_inv h
  obtain ⟨u3, s5, h5, h⟩ := seqP_ok_inv h
  obtain ⟨sc, s6, h6, h⟩ := seqP_ok_inv h
  obtain ⟨u4, s7, h7, h⟩ := seqP_ok_inv h
  obtain ⟨ax, s8, h8, h⟩ := seqP_ok_inv h
  obtain ⟨u5, s9, h9, h⟩ := seqP_ok_inv h
  obtain ⟨prods, s10, h10, h⟩ := seqP_ok_inv h
  obtain ⟨hb, hr⟩ := pureP_ok_inv h
  subst hb
  cases u1; cases u2; cases u3; cases u4; cases u5
  exact ⟨s1, s2, s3, s4, s5, s6, s7, s8, s9, s10,
    h1, expectP_ok_inv h2, expectP_ok_inv h3, expectP_ok_inv h4,
    expectP_ok_inv h5, expectP_ok_inv h6, expectP_ok_inv h7,
    expectP_ok_inv h8, expectP_ok_inv h9, expectP_ok_inv h10⟩

/-- The remainder recorded in an expectation failure of the top-level
grammar is a suffix of the input: the unconsumed input from the failure
point on. -/
theorem lsysStart_err_sfx (s : List Char) (w : String) (r : List Char)
    (h : lsysStart s = .err w r) : r <:+ s := by
  unfold lsysStart at h
  rcases seqP_err_inv h with h0 | ⟨u1, s1, h1, h⟩
  · exact absurd h0 (litP_no_err _ _ _ _)
  have hs1 : s1 <:+ s := litP_ok_sfx _ _ _ _ h1
  rcases seqP_err_inv h with h0 | ⟨g, s2, h2, h⟩
  · rcases expectP_err_inv h0 with ⟨_, _, hr⟩ | h0'
    · exact hr ▸ hs1
    · exact absurd h0' (qiInt_no_err _ _ _)
  have hs2 : s2 <:+ s := (qiInt_sfx _ _ _ (expectP_ok_inv h2)).trans hs1
  rcases seqP_err_inv h with h0 | ⟨u2, s3, h3, h⟩
  · rcases expectP_err_inv h0 with ⟨_, _, hr⟩ | h0'
    · exact hr ▸ hs2
    · exact absurd h0' (litP_no_err _ _ _ _)
  have hs3 : s3 <:+ s := (litP_ok_sfx _ _ _ _ (expectP_ok_inv h3)).trans hs2
  rcases seqP_err_inv h with h0 | ⟨ang, s4, h4, h⟩
  · rcases expectP_err_inv h0 with ⟨_, _, hr⟩ | h0'
    · exact hr ▸ hs3
    · exact absurd h0' (qiDouble_no_err _ _ _)
  have hs4 : s4 <:+ s := (qiDouble_sfx _ _ _ (expectP_ok_inv h4)).trans hs3
  rcases seqP_err_inv h with h0 | ⟨u3, s5, h5, h⟩
  · rcases expectP_err_inv h0 with ⟨_, _, hr⟩ | h0'
    · exact hr ▸ hs4
    · exact absurd h0' (litP_no_err _ _ _ _)
  have hs5 : s5 <:+ s := (litP_ok_sfx _ _ _ _ (expectP_ok_inv h5)).trans hs4
  rcases seqP_err_inv h with h0 | ⟨sc, s6, h6, h⟩
  · rcases expectP_err_inv h0 with ⟨_, _, hr⟩ | h0'
    · exact hr ▸ hs5
    · exact absurd h0' (qiDouble_no_err _ _ _)
  have hs6 : s6 <:+ s := (qiDouble_sfx _ _ _ (expectP_ok_inv h6)).trans hs5
  rcases seqP_err_inv h with h0 | ⟨u4, s7, h7, h⟩
  · rcases expectP_err_inv h0 with ⟨_, _, hr⟩ | h0'
    · exact hr ▸ hs6
    · exact absurd h0' (litP_no_err _ _ _ _)
  have hs7 : s7 <:+ s := (litP_ok_sfx _ _ _ _ (expectP_ok_inv h7)).trans hs6
  rcases seqP_err_inv h with h0 | ⟨ax, s8, h8, h⟩
  · rcases expectP_err_inv h0 with ⟨_, _, hr⟩ | h0'
    · exact hr ▸ hs7
    · exact absurd h0' (plusRule_no_err _ _ _)
  have hs8 : s8 <:+ s := (plusRule_ok_sfx _ _ _ (expectP_ok_inv h8)).trans hs7
  rcases seqP_err_inv h with h0 | ⟨u5, s9, h9, h⟩
  · rcases expectP_err_inv h0 with ⟨_, _, hr⟩ | h0'
    · exact hr ▸ hs8
    · exact absurd h0' (litP_no_err _ _ _ _)
  have hs9 : s9 <:+ s := (litP_ok_sfx _ _ _ _ (expectP_ok_inv h9)).trans hs8
  rcases seqP_err_inv h with h0 | ⟨prods, s10, h10, h⟩
  · rcases expectP_err_inv h0 with ⟨_, _, hr⟩ | h0'
    · exact hr ▸ hs9
    · exact (productionsP_err_sfx _ _ _ h0').trans hs9
  exact absurd h (pureP_ne_err _ _ _ _)

/-- The top-level grammar fails plainly (without raising an expectation
failure, hence without writing a diagnostic) only when the leading
`generations:` keyword does not match. -/
theorem lsysStart_fail_inv (s : List Char)
    (h : lsysStart s = .fail) : litP "generations:" s = .fail := by
  unfold lsysStart at h
  rcases seqP_fail_inv h with h0 | ⟨u1, s1, h1, h⟩
  · exact h0
  exfalso
  rcases seqP_fail_inv h with h0 | ⟨g, s2, h2, h⟩
  · exact expectP_ne_fail _ _ _ h0
  rcases seqP_fail_inv h with h0 | ⟨u2, s3, h3, h⟩
  · exact expectP_ne_fail _ _ _ h0
  rcases seqP_fail_inv h with h0 | ⟨ang, s4, h4, h⟩
  · exact expectP_ne_fail _ _ _ h0
  rcases seqP_fail_inv h with h0 | ⟨u3, s5, h5, h⟩
  · exact expectP_ne_fail _ _ _ h0
  rcases seqP_fail_inv h with h0 | ⟨sc, s6, h6, h⟩
  · exact expectP_ne_fail _ _ _ h0
  rcases seqP_fail_inv h with h0 | ⟨u4, s7, h7, h⟩
  · exact expectP_ne_fail _ _ _ h0
  rcases seqP_fail_inv h with h0 | ⟨ax, s8, h8, h⟩
  · exact expectP_ne_fail _ _ _ h0
  rcases seqP_fail_inv h with h0 | ⟨u5, s9, h9, h⟩
  · exact expectP_ne_fail _ _ _ h0
  rcases seqP_fail_inv h with h0 | ⟨prods, s10, h10, h⟩
  · exact expectP_ne_fail _ _ _ h0
  exact pureP_ne_fail _ _ h

/-! ### Claim theorems -/

set_option maxRecDepth 8000 in
set_option maxHeartbeats 2000000 in
/-- Claim C1 (code bug): the claim says two production lines with the same
predecessor accumulate both alternatives in source order.  The code instead
inserts each line's `(predecessor, one-element list)` pair into a `std::map`
via `insert`, which silently discards the pair when the key is already
present.  Evaluating the parser at the spec's own stochastic scenario
(`F (0.5) -> F[+F]F` and `F (0.5) -> F[-F]F`): the parse succeeds but the
table keeps only the first alternative for `F`; the second line is dropped,
not appended and not overwriting. -/
theorem c1_second_alternative_dropped :
    LSystemParser.parse
        "generations:5 angle:20 scale:0.6 axiom:F\nF (0.5) -> F[+F]F\nF (0.5) -> F[-F]F" =
      .ok ⟨5, 20, 3/5, [.moveForward],
        [(.moveForward,
          [(1/2, [.moveForward, .word '[', .word '+', .moveForward, .word ']',
            .moveForward])])]⟩ := by
  simp [LSystemParser.parse, parseRange, lsysStart, seqP, expectP, altP, pureP,
    litP, stripPre, skip, skipGo, ruleTableP, wordP, ruleP, qiInt, qiDouble, readSign,
    spanDigits, natOfDigits, pow10, expPart, expDigits, plusRule, manyRuleF,
    probabilityP, productionP, pairP, factory, prodLoopF, productionsP, mapInsert]
  norm_num

set_option maxRecDepth 8000 in
set_option maxHeartbeats 2000000 in
/-- Claim C2, counterexample: a syntactically complete document followed by
a blank line and the non-whitespace, non-comment character `x` parses
successfully and returns the LSystem built from the complete prefix — the
claim says it must fail.  (`phrase_parse` never requires full consumption;
the production list backtracks at the blank line.) -/
theorem c2_counterexample_trailing_content_accepted :
    LSystemParser.parse (docA ++ "\n\nx") = .ok lsA ∧
    LSystemParser.parse docA = .ok lsA := by
  constructor <;>
    simp [docA, lsA, LSystemParser.parse, parseRange, lsysStart, seqP, expectP, altP,
      pureP, litP, stripPre, skip, skipGo, ruleTableP, wordP, ruleP, qiInt, qiDouble,
      readSign, spanDigits, natOfDigits, pow10, expPart, expDigits, plusRule, manyRuleF,
      probabilityP, productionP, pairP, factory, prodLoopF, productionsP, mapInsert]

set_option maxRecDepth 8000 in
set_option maxHeartbeats 2000000 in
/-- Claim C2, amended: the parser does not check that the whole input was
consumed.  Trailing content that the production-list iteration can reach
(one separator newline followed by a symbol) fails with an expectation
error, but after a blank line the iteration backtracks and ANY trailing
content — here an arbitrary `rest` — is silently ignored: the parse
succeeds with the LSystem of the complete prefix. -/
theorem c2_trailing_after_blank_line_ignored (rest : List Char) :
    parseRange (docA.data ++ '\n' :: '\n' :: rest) = .ok lsA := by
  simp [docA, lsA, parseRange, lsysStart, seqP, expectP, altP,
    pureP, litP, stripPre, skip, skipGo, ruleTableP, wordP, ruleP, qiInt, qiDouble,
    readSign, spanDigits, natOfDigits, pow10, expPart, expDigits, plusRule,
    manyRuleF_nl, prodLoopF_blank,
    probabilityP, productionP, pairP, factory, productionsP, mapInsert]

set_option maxRecDepth 8000 in
set_option maxHeartbeats 2000000 in
/-- Claim C3, counterexample: inserting the comment `#c` between two tokens
of a valid input — between the axiom symbol `F` and the structurally
significant newline that terminates the axiom line — changes the parse
result from success to an expectation failure, because the skipper consumes
the comment together with the newline that closes it. -/
theorem c3_counterexample_comment_swallows_newline :
    LSystemParser.parse docA = .ok lsA ∧
    LSystemParser.parse "generations:1 angle:0 scale:1 axiom:F#c\nF -> F" =
      .error ("Cannot parse lsystem:" ++ renderDiag "\"\\n\"" []) := by
  constructor <;>
    simp [docA, lsA, LSystemParser.parse, parseRange, lsysStart, seqP, expectP, altP,
      pureP, litP, stripPre, skip, skipGo, ruleTableP, wordP, ruleP, qiInt, qiDouble,
      readSign, spanDigits, natOfDigits, pow10, expPart, expDigits, plusRule, manyRuleF,
      probabilityP, productionP, pairP, factory, prodLoopF, productionsP, mapInsert,
      renderDiag]

/-- Claim C3, amended: comment insertion is transparent only for a full
comment line that carries its own terminating newline (`#`, a newline-free
body, `'\n'`).  Such a line is absorbed by the skipper wherever the skipper
runs — and every token of the grammar is matched after a run of the skipper
— so prepending it at a point where the grammar is about to match a token
leaves the result unchanged; formalized by the skipper equation and by the
whole parse, whose first token's pre-skip is the first input action.
A comment terminated by a pre-existing structural newline instead swallows
that newline (see the counterexample). -/
theorem c3_full_comment_line_transparent (body rest : List Char)
    (h : ∀ c ∈ body, c ≠ '\n') :
    skip ('#' :: (body ++ '\n' :: rest)) = skip rest ∧
    parseRange ('#' :: (body ++ '\n' :: rest)) = parseRange rest := by
  have hs := skip_comment_line body rest h
  refine ⟨hs, ?_⟩
  unfold parseRange lsysStart
  simp only [seqP, litP, hs]

/-- Witness for the amended C3 at a concrete comment line and document. -/
theorem c3_witness :
    skip ('#' :: (['c'] ++ '\n' :: docA.data)) = skip docA.data ∧
    parseRange ('#' :: (['c'] ++ '\n' :: docA.data)) = parseRange docA.data :=
  c3_full_comment_line_transparent ['c'] docA.data (by decide)

/-- Claim C4, counterexample: on the input `q` the parse fails, but the
error message is the bare `Cannot parse lsystem:` — the leading
`generations:` keyword mismatch is a plain failure, `qi::on_error` never
fires, and the message contains neither a rule name for the failure point
nor the unconsumed remainder (`q` does not occur in it). -/
theorem c4_counterexample_bare_error_message :
    LSystemParser.parse "q" = .error "Cannot parse lsystem:" ∧
    ¬ ('q' ∈ "Cannot parse lsystem:".data) := by
  constructor
  · simp [LSystemParser.parse, parseRange, lsysStart, seqP, expectP, altP, pureP,
      litP, stripPre, skip, skipGo]
  · decide

/-- Claim C4, amended: when parsing fails anywhere past the leading
`generations:` keyword, the failure is an expectation failure and the
thrown message has the documented shape — it names the expected grammar
element and quotes the unconsumed remainder of the input (a suffix of the
input) from the failure point; when the leading keyword itself fails to
match, the message is the bare prefix with no rule name and no remainder,
and no LSystem is returned in either case. -/
theorem c4_error_message_structure (s : String) (m : String)
    (h : LSystemParser.parse s = .error m) :
    (m = "Cannot parse lsystem:" ∧ litP "generations:" s.data = .fail) ∨
    (∃ w r, r <:+ s.data ∧ m = "Cannot parse lsystem:" ++ renderDiag w r) := by
  unfold LSystemParser.parse parseRange at h
  cases hp : lsysStart s.data with
  | ok ls rr => rw [hp] at h; simp at h
  | fail =>
    rw [hp] at h
    simp at h
    exact .inl ⟨h.symm, lsysStart_fail_inv _ hp⟩
  | err w r =>
    rw [hp] at h
    simp at h
    exact .inr ⟨w, r, lsysStart_err_sfx _ _ _ hp, h.symm⟩

/-- Witness for the amended C4 at the input `q`. -/
theorem c4_witness :
    ("Cannot parse lsystem:" = "Cannot parse lsystem:" ∧
      litP "generations:" "q".data = .fail) ∨
    (∃ w r, r <:+ "q".data ∧
      "Cannot parse lsystem:" = "Cannot parse lsystem:" ++ renderDiag w r) :=
  c4_error_message_structure "q" "Cannot parse lsystem:" (by
    simp [LSystemParser.parse, parseRange, lsysStart, seqP, expectP, altP, pureP,
      litP, stripPre, skip, skipGo])

/-- Claim C5: a production line without a parenthesized probability group —
i.e. whose first significant character after the predecessor is not `(` —
gets probability exactly `1`: the alternative `('(' > double_ > ')')`
fails without consuming anything and `attr(1)` supplies the default. -/
theorem c5_missing_probability_defaults_to_one (s : List Char)
    (h : (skip s).head? ≠ some '(') : probabilityP s = .ok 1 s := by
  cases hl : litP "(" s with
  | ok u t =>
    exfalso
    unfold litP at hl
    cases hs : skip s with
    | nil => rw [hs] at hl; simp [stripPre] at hl
    | cons c r =>
      rw [hs] at hl
      by_cases hc : '(' = c
      · rw [← hc] at hs
        rw [hs] at h
        simp at h
      · simp [stripPre, hc] at hl
  | fail =>
    have hA : seqP (litP "(")
        (fun _ => seqP (expectP "real number" qiDouble) fun v =>
          seqP (expectP "\")\"" (litP ")")) fun _ => pureP v) s = .fail := by
      simp [seqP, hl]
    simp [probabilityP, altP, hA, pureP]
  | err w r => exact absurd hl (litP_no_err _ _ _ _)

/-- Witness for C5 at the rest of a production line with no probability
group. -/
theorem c5_witness : probabilityP "-> F".data = .ok 1 "-> F".data :=
  c5_missing_probability_defaults_to_one "-> F".data (by decide)

/-- Claim C6: at every symbol position (the axiom, predecessors and
successors all go through `RuleGrammar::start`), the single characters `F`
and `f` resolve through the alias table to the built-in singletons — never
to `Word` — and every other non-space, non-newline character becomes the
`Word` carrying exactly that character. -/
theorem c6_alias_resolution (s : List Char) (c : Char) (r : List Char)
    (hs : skip s = c :: r) (h1 : c ≠ '\n') (h2 : c ≠ ' ') :
    ruleP s = .ok (charToRule c) r ∧
    charToRule 'F' = .moveForward ∧
    charToRule 'f' = .jumpForward ∧
    (∀ d, charToRule 'F' ≠ .word d ∧ charToRule 'f' ≠ .word d) ∧
    ((c ≠ 'F' ∧ c ≠ 'f') → charToRule c = .word c) := by
  refine ⟨ruleP_eval s c r hs h1 h2, rfl, rfl,
    fun d => ⟨by simp [charToRule], by simp [charToRule]⟩,
    fun hc => by simp [charToRule, hc.1, hc.2]⟩

/-- Witness for C6 at a symbol position holding `F`. -/
theorem c6_witness :
    ruleP "F x".data = .ok (charToRule 'F') [' ', 'x'] ∧
    charToRule 'F' = .moveForward ∧
    charToRule 'f' = .jumpForward ∧
    (∀ d, charToRule 'F' ≠ .word d ∧ charToRule 'f' ≠ .word d) ∧
    (('F' ≠ 'F' ∧ 'F' ≠ 'f') → charToRule 'F' = .word 'F') :=
  c6_alias_resolution "F x".data 'F' [' ', 'x'] (by decide) (by decide) (by decide)

set_option maxRecDepth 8000 in
set_option maxHeartbeats 2000000 in
/-- Claim C7, counterexample: the grammar performs no range validation of
the probability: the line `F (2.5) -> F` parses successfully and stores
probability `5/2`, which is not in `(0,1]`. -/
theorem c7_counterexample_probability_above_one :
    LSystemParser.parse "generations:1 angle:0 scale:1 axiom:F\nF (2.5) -> F" =
      .ok ⟨1, 0, 1, [.moveForward], [(.moveForward, [(5/2, [.moveForward])])]⟩ ∧
    ¬ ((5 : ℚ)/2 ≤ 1) := by
  constructor
  · simp [LSystemParser.parse, parseRange, lsysStart, seqP, expectP, altP, pureP,
      litP, stripPre, skip, skipGo, ruleTableP, wordP, ruleP, qiInt, qiDouble, readSign,
      spanDigits, natOfDigits, pow10, expPart, expDigits, plusRule, manyRuleF,
      probabilityP, productionP, pairP, factory, prodLoopF, productionsP, mapInsert]
    norm_num
  · norm_num

/-- Claim C7, amended: a stored probability is either the default `1`
(group absent, nothing consumed) or exactly the parenthesized
floating-point literal as parsed — no restriction to `(0,1]` is applied
anywhere. -/
theorem c7_probability_unvalidated (s : List Char) (x : ℚ) (r : List Char)
    (h : probabilityP s = .ok x r) :
    (x = 1 ∧ r = s) ∨
    (∃ t r2, litP "(" s = .ok () t ∧ qiDouble t = .ok x r2 ∧
      litP ")" r2 = .ok () r) :=
  probabilityP_ok_inv s x r h

/-- Witness for the amended C7 at an explicit out-of-range literal. -/
theorem c7_witness :
    (((5 : ℚ)/2 = 1 ∧ ([' ', 'x'] : List Char) = "(2.5) x".data) ∨
    (∃ t r2, litP "(" "(2.5) x".data = .ok () t ∧ qiDouble t = .ok ((5 : ℚ)/2) r2 ∧
      litP ")" r2 = .ok () [' ', 'x'])) :=
  c7_probability_unvalidated "(2.5) x".data (5/2) [' ', 'x'] (by
    simp [probabilityP, seqP, expectP, altP, pureP, litP, stripPre, skip, skipGo,
      qiDouble, readSign, spanDigits, natOfDigits, pow10, expPart, expDigits]
    norm_num)

/-- Claim C8 (contrapositive form): every successful parse decomposes the
input into the four header literals in their fixed order, each value parsed
by the number grammar at its position, a non-empty axiom closed by its
mandatory newline, and the production block — so an input missing a field,
presenting it out of order, or with an empty axiom cannot parse, and no
value is ever substituted by default. -/
theorem c8_header_fields_mandatory_in_order (s : String) (ls : LSystem)
    (h : LSystemParser.parse s = .ok ls) :
    ∃ s1 s2 s3 s4 s5 s6 s7 s8 s9 s10,
      litP "generations:" s.data = .ok () s1 ∧
      qiInt s1 = .ok ls.generations s2 ∧
      litP "angle:" s2 = .ok () s3 ∧
      qiDouble s3 = .ok ls.angle s4 ∧
      litP "scale:" s4 = .ok () s5 ∧
      qiDouble s5 = .ok ls.scale s6 ∧
      litP "axiom:" s6 = .ok () s7 ∧
      plusRule s7 = .ok ls.axiomSeq s8 ∧ ls.axiomSeq ≠ [] ∧
      litP "\n" s8 = .ok () s9 ∧
      productionsP s9 = .ok ls.productions s10 := by
  unfold LSystemParser.parse parseRange at h
  cases hp : lsysStart s.data with
  | ok ls' rr =>
    rw [hp] at h
    simp at h
    subst h
    obtain ⟨s1, s2, s3, s4, s5, s6, s7, s8, s9, s10,
      h1, h2, h3, h4, h5, h6, h7, h8, h9, h10⟩ := lsysStart_ok_inv _ _ _ hp
    exact ⟨s1, s2, s3, s4, s5, s6, s7, s8, s9, s10,
      h1, h2, h3, h4, h5, h6, h7, h8, plusRule_ok_ne_nil _ _ _ h8, h9, h10⟩
  | fail => rw [hp] at h; simp at h
  | err w r => rw [hp] at h; simp at h

set_option maxRecDepth 8000 in
set_option maxHeartbeats 2000000 in
/-- Witness for C8 at the concrete document `docA`. -/
theorem c8_witness :
    ∃ s1 s2 s3 s4 s5 s6 s7 s8 s9 s10,
      litP "generations:" docA.data = .ok () s1 ∧
      qiInt s1 = .ok lsA.generations s2 ∧
      litP "angle:" s2 = .ok () s3 ∧
      qiDouble s3 = .ok lsA.angle s4 ∧
      litP "scale:" s4 = .ok () s5 ∧
      qiDouble s5 = .ok lsA.scale s6 ∧
      litP "axiom:" s6 = .ok () s7 ∧
      plusRule s7 = .ok lsA.axiomSeq s8 ∧ lsA.axiomSeq ≠ [] ∧
      litP "\n" s8 = .ok () s9 ∧
      productionsP s9 = .ok lsA.productions s10 :=
  c8_header_fields_mandatory_in_order docA lsA (by
    simp [docA, lsA, LSystemParser.parse, parseRange, lsysStart, seqP, expectP, altP,
      pureP, litP, stripPre, skip, skipGo, ruleTableP, wordP, ruleP, qiInt, qiDouble,
      readSign, spanDigits, natOfDigits, pow10, expPart, expDigits, plusRule, manyRuleF,
      probabilityP, productionP, pairP, factory, prodLoopF, productionsP, mapInsert])

/-- Claim C9: the stream overload reads the stream fully into text and
delegates to the text overload, so on identical full contents the two
entry points return identical results — the same LSystem on success and
the same error on failure. -/
theorem c9_stream_parse_delegates (chunks : List String) (t : String)
    (h : LSystemParser.readAll chunks = t) :
    LSystemParser.parseStream chunks = LSystemParser.parse t := by
  rw [LSystemParser.parseStream, h]

/-- Witness for C9 at a stream delivering `docA` in two chunks. -/
theorem c9_witness :
    LSystemParser.parseStream ["generations:1 angle:0 scale:1 ", "axiom:F\nF -> F"] =
      LSystemParser.parse docA :=
  c9_stream_parse_delegates _ docA (by rfl)

set_option maxRecDepth 8000 in
set_option maxHeartbeats 2000000 in
/-- Claim C10, counterexample: an input ending in an unterminated
`#`-comment is indeed not skipped (the comment alternative requires its
closing newline), and the characters are parsed as symbols appended to the
last successor — but not always as `Word` symbols, as the claim states: in
`F -> F#aF` the final `F` inside the unterminated comment resolves through
the alias table to the `MoveForward` singleton, which is not a `Word`. -/
theorem c10_counterexample_alias_in_unterminated_comment :
    LSystemParser.parse "generations:1 angle:0 scale:1 axiom:F\nF -> F#aF" =
      .ok ⟨1, 0, 1, [.moveForward],
        [(.moveForward, [(1, [.moveForward, .word '#', .word 'a', .moveForward])])]⟩ ∧
    Rule.moveForward ≠ Rule.word 'F' := by
  constructor
  · simp [LSystemParser.parse, parseRange, lsysStart, seqP, expectP, altP,
      pureP, litP, stripPre, skip, skipGo, ruleTableP, wordP, ruleP, qiInt, qiDouble,
      readSign, spanDigits, natOfDigits, pow10, expPart, expDigits, plusRule, manyRuleF,
      probabilityP, productionP, pairP, factory, prodLoopF, productionsP, mapInsert]
  · simp

set_option maxRecDepth 8000 in
set_option maxHeartbeats 2000000 in
/-- Claim C10, amended: for every newline-free, space-free comment body, a
trailing `#` comment not closed by a newline is not consumed by the
skipper; `#` and each following character are parsed as ordinary symbols
through the symbol grammar — `Word` for every character outside the alias
table, the built-in singletons for `F`/`f` — and appended to the last
successor. -/
theorem c10_unterminated_comment_parsed_as_symbols (body : List Char)
    (h : ∀ c ∈ body, c ≠ '\n' ∧ c ≠ ' ') :
    parseRange (docA.data ++ '#' :: body) =
      .ok ⟨1, 0, 1, [.moveForward],
        [(.moveForward, [(1, .moveForward :: (('#' :: body).map charToRule))])]⟩ := by
  have haux := manyRuleF_symbols ('#' :: body) (body.length + 1) (by simp)
    (fun c hc => by
      rcases List.mem_cons.mp hc with h1 | h1
      · subst h1; exact ⟨by decide, by decide⟩
      · exact h c h1)
  simp [docA, parseRange, lsysStart, seqP, expectP, altP,
    pureP, litP, stripPre, skip, skipGo, ruleTableP, wordP, ruleP, qiInt, qiDouble,
    readSign, spanDigits, natOfDigits, pow10, expPart, expDigits, plusRule,
    manyRuleF_nl, haux, charToRule,
    probabilityP, productionP, pairP, factory, prodLoopF, productionsP, mapInsert]

/-- Witness for the amended C10 at the comment body `z`. -/
theorem c10_witness :
    parseRange (docA.data ++ '#' :: ['z']) =
      .ok ⟨1, 0, 1, [.moveForward],
        [(.moveForward, [(1, .moveForward :: (('#' :: ['z']).map charToRule))])]⟩ :=
  c10_unterminated_comment_parsed_as_symbols ['z'] (by decide)
